import Mathlib

/-!
Verification of the memory-extraction pipeline of the `elaaoms` backend.

This file gives a shallow embedding, in Lean 4, of the algorithmic core of
the repository (content hashing, extraction-result validation, transcript
chunking, two-phase deduplication with conflict detection, retrying storage,
the job-retry loop, the background worker loop and the TTL read cache), and
proves or refutes the specification claims about it.

External collaborators (the SHA-256 primitive of `hashlib`, the OpenMemory
HTTP store, the language model, the filesystem and the wall clock) are
modelled as explicit parameters: the store as a record of injectable
behaviours, the hash as a function argument, time as a rational argument.
Everything else is translated statement-by-statement from the Python source;
comments cite the file and line of the code being embedded.
-/

set_option maxHeartbeats 1600000

namespace ElaaOMS

/-! ## Basic string utilities shared by several components

Python-faithful helpers: substring containment (the `in` operator),
character counting, ASCII whitespace handling for `str.strip()` and the
regex `\s+` substitution used by the content hasher. -/

/-- Left and right brace characters, written via `Char.ofNat`. -/
def lbraceChar : Char := Char.ofNat 123

def rbraceChar : Char := Char.ofNat 125

def quoteChar : Char := Char.ofNat 34

/-- Whitespace class of Python `str.strip()` and of the regex `\s` (ASCII). -/
def isPyWhitespace (c : Char) : Bool :=
  c = ' ' ∨ c = Char.ofNat 9 ∨ c = Char.ofNat 10 ∨ c = Char.ofNat 13 ∨
  c = Char.ofNat 11 ∨ c = Char.ofNat 12

/-- Whether `needle` occurs at the head of `hay`. -/
def headMatches : List Char → List Char → Bool
  | [], _ => true
  | _ :: _, [] => false
  | n :: ns, h :: hs => n == h && headMatches ns hs

/-- Whether `needle` occurs anywhere in `hay` (Python `needle in hay`). -/
def containsCh (needle : List Char) : List Char → Bool
  | [] => needle.isEmpty
  | c :: rest => headMatches needle (c :: rest) || containsCh needle rest

/-- Python `needle in hay` on strings. -/
def strContains (hay needle : String) : Bool :=
  containsCh needle.toList hay.toList

/-- Python `hay.count(c)` for a single character. -/
def countChar (s : String) (c : Char) : Nat := s.toList.count c

/-- Drop leading Python whitespace from a character list. -/
def dropLeadingWs : List Char → List Char
  | [] => []
  | c :: rest => if isPyWhitespace c then dropLeadingWs rest else c :: rest

/-- Python `str.lower()` (ASCII, which covers every input in this
development). -/
def pyLower (s : String) : String := String.mk (s.toList.map Char.toLower)

/-- Python `str.strip()`. -/
def pyStrip (s : String) : String :=
  String.mk ((dropLeadingWs ((dropLeadingWs s.toList).reverse)).reverse)

/-- Replace each maximal run of whitespace by a single space
(the regex substitution of one space for each run of `\s+`). -/
def collapseWs : List Char → List Char
  | [] => []
  | [c] => if isPyWhitespace c then [' '] else [c]
  | c :: c2 :: rest =>
    if isPyWhitespace c then
      if isPyWhitespace c2 then collapseWs (c2 :: rest)
      else ' ' :: collapseWs (c2 :: rest)
    else c :: collapseWs (c2 :: rest)

/-- Association-list lookup with string keys; Python `dict.get(k)`. -/
def alistGet {α : Type} (k : String) : List (String × α) → Option α
  | [] => Option.none
  | p :: rest => if p.1 = k then some p.2 else alistGet k rest

/-- Association-list insert-or-update; Python `d[k] = v`.  A present key
keeps its position (as in a Python dict); a new key is appended at the end. -/
def alistPut {α : Type} (k : String) (v : α) : List (String × α) → List (String × α)
  | [] => [(k, v)]
  | p :: rest => if p.1 = k then (k, v) :: rest else p :: alistPut k v rest

/-- Association-list key deletion; Python `del d[k]`. -/
def alistDel {α : Type} (k : String) : List (String × α) → List (String × α)
  | [] => []
  | p :: rest => if p.1 = k then alistDel k rest else p :: alistDel k rest

/-! ## Content hashing — `src/backend/app/memory_utils.py`, lines 13-38

`get_content_hash` normalizes (lowercase, strip, collapse whitespace) and
then applies `hashlib.sha256(...).hexdigest()`.  SHA-256 is an external
primitive: it is passed in as the function argument `sha`. -/

/-- Normalization performed inside `get_content_hash` (memory_utils.py 31-35):
lowercase, strip, then collapse each whitespace run to one space. -/
def normalizeForHash (content : String) : String :=
  String.mk (collapseWs (pyStrip (pyLower content)).toList)

/-- Embedding of `get_content_hash` (memory_utils.py 13-38).  The guard
`if not content: return ""` short-circuits the empty string; otherwise the
normalized text is hashed with the external `sha` primitive. -/
def getContentHash (sha : String → String) (content : String) : String :=
  if content = "" then "" else sha (normalizeForHash content)

/-! ## Extraction-result validation — `src/backend/app/llm_service.py`, lines 235-295

Raw model output is a Python list of arbitrary JSON-ish values.  `PyVal`
models the dynamic values the validator can meet; a Python `bool` is a
subclass of `int` (so `isinstance(True, int)` holds), which the importance
check below reproduces. -/

/-- Dynamic Python value, as received from JSON-parsing the model output. -/
inductive PyVal where
  | str (s : String)
  | int (n : Int)
  | bool (b : Bool)
  | list (xs : List PyVal)
  | dict (kvs : List (String × PyVal))
  | none
deriving Repr

/-- Python `d.get(k, dflt)` on a dict represented as a key-value list. -/
def pyGet (kvs : List (String × PyVal)) (k : String) (dflt : PyVal) : PyVal :=
  match alistGet k kvs with
  | some v => v
  | Option.none => dflt

/-- The category taxonomy (`valid_categories`, llm_service.py 251). -/
def validCategories : List String :=
  ["factual", "preference", "issue", "emotional", "relational"]

/-- A validated memory record as produced by `_validate_memory_response`. -/
structure ValidatedMemory where
  content : String
  category : String
  importance : Int
  entities : List PyVal
deriving Repr

/-- Content check of llm_service.py 266: `not content or not isinstance(content, str)`
rejects the record.  The check passes exactly for a non-empty string. -/
def contentIsValid : PyVal → Bool
  | .str s => s ≠ ""
  | _ => false

/-- Category coercion (llm_service.py 271-273): `category not in
valid_categories` — which holds for every non-string value — coerces to
`"factual"`. -/
def coerceCategory (v : PyVal) : String :=
  match v with
  | .str c => if c ∈ validCategories then c else "factual"
  | _ => "factual"

/-- Importance coercion (llm_service.py 276-278):
`not isinstance(importance, int) or importance < 1 or importance > 10`
coerces to 5.  A Python `bool` passes the `isinstance` check with value
0 or 1. -/
def coerceImportance (v : PyVal) : Int :=
  match v with
  | .int n => if n < 1 ∨ 10 < n then 5 else n
  | .bool b =>
    if (if b then (1 : Int) else 0) < 1 ∨ 10 < (if b then (1 : Int) else 0)
    then 5 else (if b then 1 else 0)
  | _ => 5

/-- Entities coercion (llm_service.py 281-282): non-lists become `[]`. -/
def coerceEntities (v : PyVal) : List PyVal :=
  match v with
  | .list xs => xs
  | _ => []

/-- Validation of one raw record (body of the loop, llm_service.py 253-289).
A non-dict value is skipped (line 256); non-string or empty content is
rejected (line 266); the remaining fields are coerced. -/
def validateOne (memory : PyVal) : Option ValidatedMemory :=
  match memory with
  | .dict kvs =>
    match pyGet kvs "content" (.str "") with
    | .str s =>
      if s = "" then Option.none
      else
        some { content := s
               category := coerceCategory (pyGet kvs "category" (.str "factual"))
               importance := coerceImportance (pyGet kvs "importance" (.int 5))
               entities := coerceEntities (pyGet kvs "entities" (.list [])) }
    | _ => Option.none
  | _ => Option.none

/-- Embedding of `_validate_memory_response` (llm_service.py 235-295): the
loop appends each successfully validated record and skips the rest. -/
def validateMemoryResponse (memories : List PyVal) : List ValidatedMemory :=
  memories.filterMap validateOne

/-! ## Transcript chunking — `src/backend/app/llm_service.py`, lines 297-452

The while-loop of `_chunk_transcript` walks the transcript by an index `i`.
The embedding walks the unprocessed suffix directly: `rest = transcript[i:]`,
so `i < len(transcript)` becomes `rest ≠ []`, the guard `i < len(transcript) - 1`
becomes `rest.tail ≠ []`, and not incrementing `i` keeps `msg :: rest`
unchanged.  The Python loop has no fuel: a `fuel` argument makes the
embedding total, with `Option.none` meaning the loop has not terminated
within `fuel` iterations. -/

/-- A transcript message (`{"role": ..., "message": ...}`); fields are
optional to model the role defaulting to unknown and the message to empty. -/
structure Msg where
  role : Option String
  message : Option String
deriving DecidableEq, Repr

/-- Embedding of `_estimate_tokens` (llm_service.py 297-307): `len(text) // 4`. -/
def estimateTokens (text : String) : Nat := text.length / 4

/-- The `f"{role}: {message}"` rendering used throughout chunking
(llm_service.py 339, 368, 406). -/
def msgText (m : Msg) : String :=
  m.role.getD "unknown" ++ ": " ++ m.message.getD ""

def msgTokens (m : Msg) : Nat := estimateTokens (msgText m)

/-- The `"\n".join(...)` of all rendered messages (llm_service.py 338-341). -/
def fullTranscriptText (t : List Msg) : String :=
  String.intercalate (String.mk [Char.ofNat 10]) (t.map msgText)

/-- One emitted chunk with its metadata (llm_service.py 389-398, 431-440).
`overlapLen` is a ghost field not present in the source metadata: it records
how many messages at the head of `chunk` were re-seeded from the previous
chunk (`overlap_messages`), which is what the coverage property quantifies
over.  The source computes exactly this list at lines 402-412. -/
structure Chunk where
  chunk : List Msg
  chunkIndex : Nat
  totalChunks : Nat
  tokenCount : Nat
  messageCount : Nat
  overlapLen : Nat
deriving DecidableEq, Repr

def mkChunk (current : List Msg) (idx total curTok curOv : Nat) : Chunk :=
  { chunk := current, chunkIndex := idx, totalChunks := total,
    tokenCount := curTok, messageCount := current.length, overlapLen := curOv }

/-- The backwards overlap scan of llm_service.py 402-412: walk the closed
window from its end, keep prepending messages while the cumulative estimate
stays within `overlapT`, stop at the first message that does not fit.
The first component is `overlap_messages`, the second `overlap_tokens_count`. -/
def overlapScan (overlapT : Nat) (acc : List Msg × Nat) : List Msg → List Msg × Nat
  | [] => acc
  | m :: restRev =>
    if acc.2 + msgTokens m ≤ overlapT then
      overlapScan overlapT (m :: acc.1, acc.2 + msgTokens m) restRev
    else acc

def overlapOf (overlapT : Nat) (current : List Msg) : List Msg × Nat :=
  overlapScan overlapT ([], 0) current.reverse

/-- The boundary decision of llm_service.py 375-386.  `true` means
`split_at = i + 1` (the overflowing message is consumed into the next
window); `false` means `split_at = i` (the same message is retried in the
next iteration).  `restAfter` is the transcript after the current message,
so `restAfter ≠ []` is the source guard `i < len(transcript) - 1`. -/
def splitAfterMsg (msg : Msg) (restAfter current : List Msg) : Bool :=
  if restAfter ≠ [] then
    if msg.role.getD "" = "user" ∧ 0 < current.length then false else true
  else false

/-- Fuel-indexed embedding of the chunking while-loop
(llm_service.py 365-440), including the final-chunk flush at 429-440.
State: unprocessed suffix, emitted chunks, current window, its token count,
the chunk index, and the ghost overlap-seed length of the current window. -/
def chunkLoop (maxT overlapT : Nat) :
    Nat → List Msg → List Chunk → List Msg → Nat → Nat → Nat → Option (List Chunk)
  | 0, _, _, _, _, _, _ => Option.none
  | _ + 1, [], chunks, current, curTok, idx, curOv =>
    if current = [] then some chunks
    else some (chunks ++ [mkChunk current idx (chunks.length + 1) curTok curOv])
  | fuel + 1, msg :: rest, chunks, current, curTok, idx, curOv =>
    if curTok + msgTokens msg > maxT ∧ current ≠ [] then
      if splitAfterMsg msg rest current then
        chunkLoop maxT overlapT fuel rest
          (chunks ++ [mkChunk current idx 0 curTok curOv])
          ((overlapOf overlapT current).1 ++ [msg])
          ((overlapOf overlapT current).2 + msgTokens msg)
          (idx + 1) (overlapOf overlapT current).1.length
      else
        chunkLoop maxT overlapT fuel (msg :: rest)
          (chunks ++ [mkChunk current idx 0 curTok curOv])
          (overlapOf overlapT current).1 (overlapOf overlapT current).2
          (idx + 1) (overlapOf overlapT current).1.length
    else
      chunkLoop maxT overlapT fuel rest chunks (current ++ [msg])
        (curTok + msgTokens msg) idx curOv

/-- Embedding of `_chunk_transcript` (llm_service.py 309-452): empty input
gives zero chunks (line 328); a transcript whose total estimate fits the
budget is returned as a single chunk (lines 344-355); otherwise the loop
runs and every emitted chunk gets its `total_chunks` field set to the final
count (lines 442-445). -/
def chunkTranscript (fuel maxT overlapT : Nat) (t : List Msg) : Option (List Chunk) :=
  if t = [] then some []
  else if estimateTokens (fullTranscriptText t) ≤ maxT then
    some [mkChunk t 0 1 (estimateTokens (fullTranscriptText t)) 0]
  else
    match chunkLoop maxT overlapT fuel t [] [] 0 0 0 with
    | some cs => some (cs.map (fun c => { c with totalChunks := cs.length }))
    | Option.none => Option.none

/-! ## The memory store and deduplication —
`src/backend/app/openmemory_client.py` 536-689 and
`src/backend/app/background_jobs.py` 292-606

The OpenMemory HTTP store is an external collaborator; it is modelled by a
`Store` record: the set of existing memories for the `(caller, agent)` pair,
the top hit the store would rank for a semantic query, failure-injection
flags for each of the three `search_memories` call shapes, and per-attempt
behaviours for `store`/`reinforce` calls.  Similarity scores are rationals
standing in for the store floats. -/

/-- An existing memory as returned by the store: `id`/`memory_id`, content,
semantic score, and the metadata fields the pipeline reads
(`metadata.category`, `metadata.importance`, `metadata.content_hash`). -/
structure StoredMemory where
  id : Option String
  memoryId : Option String
  content : Option String
  score : Option ℚ
  category : Option String
  importance : Option Int
  contentHash : Option String
deriving DecidableEq, Repr

/-- An extracted memory dict entering `_store_memories_with_deduplication`;
optional fields model `memory.get(key, default)`. -/
structure Candidate where
  content : Option String
  category : Option String
  sector : Option String
  importance : Option Int
  entities : Option (List String)
deriving DecidableEq, Repr

/-- Behaviour of one `store_caller_memory` attempt: a memory id, an explicit
`None` result, or a raised exception. -/
inductive StoreOutcome where
  | ok (id : String)
  | failNone
  | raised (msg : String)
deriving DecidableEq, Repr

/-- Behaviour of one `reinforce_memory` attempt. -/
inductive ReinfOutcome where
  | ok
  | failFalse
  | raised (msg : String)
deriving DecidableEq, Repr

/-- Model of the external memory store for one `(caller, agent)` pair. -/
structure Store where
  existing : List StoredMemory
  semanticTop : String → Option StoredMemory
  searchAllFails : Bool
  searchHashFails : Bool
  searchSemFails : Bool
  storeSeq : String → Nat → StoreOutcome
  reinforceSeq : String → Nat → ReinfOutcome

/-- `search_memories` filtered by `metadata.content_hash`, `limit=1`
(openmemory_client.py 568-576). -/
def searchByHash (st : Store) (h : String) : Except String (List StoredMemory) :=
  if st.searchHashFails then Except.error "search failed"
  else Except.ok ((st.existing.filter (fun m => m.contentHash = some h)).take 1)

/-- `search_memories` with the candidate content as query, `limit=1`
(openmemory_client.py 585-590): the store ranks and returns its top hit. -/
def searchSemanticTop (st : Store) (q : String) : Except String (List StoredMemory) :=
  if st.searchSemFails then Except.error "search failed"
  else Except.ok (st.semanticTop q).toList

/-- `search_memories` with empty query and `limit=1000`
(openmemory_client.py 644-649): all memories of the pair. -/
def searchAllExisting (st : Store) : Except String (List StoredMemory) :=
  if st.searchAllFails then Except.error "search failed"
  else Except.ok st.existing

/-- Body of `find_similar_memory` (openmemory_client.py 560-603) before its
`except` handler: exact content-hash lookup first; if it hits, return the
hit; otherwise one semantic query whose top hit is accepted iff its score
(default 0) reaches the threshold. -/
def findSimilarMemoryE (sha : String → String) (st : Store) (content : String)
    (thr : ℚ) (contentHash : Option String) : Except String (Option StoredMemory) :=
  let h := match contentHash with
    | some v => v
    | Option.none => getContentHash sha content
  match searchByHash st h with
  | Except.error e => Except.error e
  | Except.ok hashMemories =>
    match hashMemories with
    | m :: _ => Except.ok (some m)
    | [] =>
      match searchSemanticTop st content with
      | Except.error e => Except.error e
      | Except.ok memories =>
        match memories with
        | m :: _ =>
          if m.score.getD 0 ≥ thr then Except.ok (some m) else Except.ok Option.none
        | [] => Except.ok Option.none

/-- `find_similar_memory` (openmemory_client.py 536-607): any exception is
caught and turned into `None` (lines 605-607). -/
def findSimilarMemory (sha : String → String) (st : Store) (content : String)
    (thr : ℚ) (contentHash : Option String) : Option StoredMemory :=
  match findSimilarMemoryE sha st content thr contentHash with
  | Except.ok r => r
  | Except.error _ => Option.none

/-- Step 1 of `batch_find_similar_memories` (openmemory_client.py 635-640):
hash every candidate with non-empty content into a dict keyed by hash. -/
def buildMemoryHashes (sha : String → String) (memories : List Candidate) :
    List (String × Candidate) :=
  memories.foldl
    (fun acc m =>
      let content := m.content.getD ""
      if content ≠ "" then alistPut (getContentHash sha content) m acc else acc)
    []

/-- One step of the hash-index construction (openmemory_client.py 653-658). -/
def existingIndexStep (acc : List (String × StoredMemory)) (e : StoredMemory) :
    List (String × StoredMemory) :=
  match e.contentHash with
  | some h => if h ≠ "" then alistPut h e acc else acc
  | Option.none => acc

/-- Step 3 of `batch_find_similar_memories` (openmemory_client.py 652-658):
index existing memories by their stored `content_hash`, skipping falsy
(absent or empty) hashes. -/
def buildExistingIndex (allExisting : List StoredMemory) :
    List (String × StoredMemory) :=
  allExisting.foldl existingIndexStep []

/-- Body of `batch_find_similar_memories` (openmemory_client.py 633-684)
before its `except` handler: hash candidates, fetch all existing memories
once, match by hash (steps 4), then run the per-record two-phase check for
the hashes without an exact match (step 5). -/
def batchFindE (sha : String → String) (st : Store) (thr : ℚ)
    (memories : List Candidate) :
    Except String (List (String × Option StoredMemory)) :=
  let memoryHashes := buildMemoryHashes sha memories
  match searchAllExisting st with
  | Except.error e => Except.error e
  | Except.ok allExisting =>
    let existingByHash := buildExistingIndex allExisting
    let results0 := memoryHashes.map (fun p => (p.1, alistGet p.1 existingByHash))
    let results := results0.map (fun p =>
      match p.2 with
      | some e => (p.1, some e)
      | Option.none =>
        match alistGet p.1 memoryHashes with
        | some mem =>
          (p.1, findSimilarMemory sha st (mem.content.getD "") thr (some p.1))
        | Option.none => (p.1, Option.none))
    Except.ok results

/-- `batch_find_similar_memories` (openmemory_client.py 609-689).  Its
`except` handler (lines 686-689) catches every exception — including a
failing store query — and returns the dict comprehension
`{get_content_hash(m.get("content", "")): None for m in memories}`:
every candidate hash mapped to `None`, not an empty dict. -/
def batchFindSimilarMemories (sha : String → String) (st : Store) (thr : ℚ)
    (memories : List Candidate) : List (String × Option StoredMemory) :=
  match batchFindE sha st thr memories with
  | Except.ok r => r
  | Except.error _ =>
    memories.foldl
      (fun acc m => alistPut (getContentHash sha (m.content.getD "")) Option.none acc)
      []

/-! ## Retrying storage — `src/backend/app/background_jobs.py`, lines 479-606

`_store_memory_with_retry` / `_reinforce_memory_with_retry` run
`for attempt in range(max_attempts)`; an exception and an explicit
`None`/`False` result both count as a failed attempt; between attempts the
worker sleeps `initial_delay * 2 ** attempt`; after the last attempt the
loop falls through and returns `None`/`False`.  The embeddings also return,
as instrumentation, the number of store calls made and the list of sleeps
performed. -/

/-- Settings defaults (config/settings.py 66-67). -/
def memoryStorageRetryAttempts : Nat := 3

def memoryStorageRetryDelaySeconds : Nat := 1

/-- Settings default (config/settings.py 59). -/
def memorySimilarityThreshold : ℚ := 0.85

/-- The retry loop of `_store_memory_with_retry` (background_jobs.py 511-554):
`for attempt in range(max_attempts)`, with `remaining` attempts left and the
current `attempt` index (`remaining + attempt = max_attempts` throughout).
Result: memory id (or `none`), number of attempts performed, sleeps in
seconds. -/
def storeRetryAux (f : Nat → StoreOutcome) (maxA d : Nat) :
    Nat → Nat → Option String × Nat × List Nat
  | 0, attempt => (Option.none, attempt, [])
  | remaining + 1, attempt =>
    match f attempt with
    | .ok id => (some id, attempt + 1, [])
    | _ =>
      let rest := storeRetryAux f maxA d remaining (attempt + 1)
      if attempt < maxA - 1 then (rest.1, rest.2.1, d * 2 ^ attempt :: rest.2.2)
      else (rest.1, rest.2.1, rest.2.2)

/-- `_store_memory_with_retry` (background_jobs.py 479-554). -/
def storeMemoryWithRetry (f : Nat → StoreOutcome) (maxA d : Nat) :
    Option String × Nat × List Nat :=
  storeRetryAux f maxA d maxA 0

/-- The retry loop of `_reinforce_memory_with_retry`
(background_jobs.py 572-606), in the same remaining/attempt form. -/
def reinforceRetryAux (f : Nat → ReinfOutcome) (maxA d : Nat) :
    Nat → Nat → Bool × Nat × List Nat
  | 0, attempt => (false, attempt, [])
  | remaining + 1, attempt =>
    match f attempt with
    | .ok => (true, attempt + 1, [])
    | _ =>
      let rest := reinforceRetryAux f maxA d remaining (attempt + 1)
      if attempt < maxA - 1 then (rest.1, rest.2.1, d * 2 ^ attempt :: rest.2.2)
      else (rest.1, rest.2.1, rest.2.2)

/-- `_reinforce_memory_with_retry` (background_jobs.py 556-606). -/
def reinforceMemoryWithRetry (f : Nat → ReinfOutcome) (maxA d : Nat) :
    Bool × Nat × List Nat :=
  reinforceRetryAux f maxA d maxA 0

/-! ## Memory content validation — `src/backend/app/background_jobs.py`, 608-657 -/

/-- Scan for the regex `\x7b[^\x7b\x7d]*"[^\x7b\x7d]*"[^\x7b\x7d]*\x7d`
(background_jobs.py 626): an open brace, then at least two quotes with no
brace in between, then a close brace.  The state is the number of quotes
seen since the most recent open brace, or `none` when no open brace is
pending. -/
def jsonScan : List Char → Option Nat → Bool
  | [], _ => false
  | ch :: rest, st =>
    if ch = lbraceChar then jsonScan rest (some 0)
    else if ch = rbraceChar then
      match st with
      | some q => if 2 ≤ q then true else jsonScan rest Option.none
      | Option.none => jsonScan rest Option.none
    else if ch = quoteChar then
      match st with
      | some q => jsonScan rest (some (q + 1))
      | Option.none => jsonScan rest Option.none
    else jsonScan rest st

def jsonPatternFound (s : String) : Bool := jsonScan s.toList Option.none

/-- `system_keywords` (background_jobs.py 632-636). -/
def systemKeywords : List String :=
  ["max_", "min_", "timeout", "config", "setting", "api", "endpoint",
   "json", "yaml", "xml", "markdown", "code", "function",
   "tool_call", "rag_retrieval", "llm_usage", "metadata"]

/-- Alternatives of `config_pattern` (background_jobs.py 640); the
IGNORECASE search over the content equals a search over its lowercase. -/
def configKeywords : List String :=
  ["max_", "min_", "timeout", "config", "setting"]

/-- Embedding of `_validate_memory_content` (background_jobs.py 608-657). -/
def validateMemoryContent (content : String) : Bool :=
  if content = "" ∨ (pyStrip content).length < 3 then false
  else
    let contentLower := pyLower content
    if jsonPatternFound content ∧ content.length < 500 then false
    else if content.length < 200 ∧
        systemKeywords.any (fun k => strContains contentLower k) ∧
        configKeywords.any (fun k => strContains contentLower k) then false
    else if strContains content "|" ∧ strContains content "---" ∧
        3 < countChar content '|' then false
    else if 2 < countChar content lbraceChar ∧ 2 < countChar content rbraceChar ∧
        content.length < 300 then false
    else if (strContains contentLower "agent_profile" ∨
        strContains contentLower "elevenlabs_api") ∧ content.length < 500 then false
    else true

/-! ## The deduplicating storage loop —
`src/backend/app/background_jobs.py`, lines 292-477 -/

/-- A logged conflict (background_jobs.py 393-397):
existing category/importance versus new category/importance. -/
structure ConflictLog where
  existingCategory : String
  existingImportance : Int
  newCategory : String
  newImportance : Int
deriving DecidableEq, Repr

/-- Python `similar_memory.get("id") or similar_memory.get("memory_id")`
followed by the truthiness test `if memory_id:` (background_jobs.py 418-419). -/
def getMemoryId (sim : StoredMemory) : Option String :=
  let a := sim.id.getD ""
  if a ≠ "" then some a
  else
    let b := sim.memoryId.getD ""
    if b ≠ "" then some b else Option.none

/-- What the per-memory loop body (background_jobs.py 341-456) does with one
candidate.  `newStoreFailed` is the no-similar-memory branch: the call at
line 431 omits the required `sector` parameter of
`_store_memory_with_retry` (whose signature at lines 479-489 has no default
for it), so Python raises `TypeError` at the call site; the per-memory
`except` at line 450 catches it and records the memory as failed — no store
attempt is ever made on this branch. -/
inductive RecordOutcome where
  | skippedEmpty
  | rejectedContent
  | conflictStored (id : String) (c : ConflictLog)
  | conflictStoreFailed (c : ConflictLog)
  | reinforcedOk (id : String)
  | reinforceFailed
  | reinforcedNoId
  | newStoreFailed
deriving DecidableEq, Repr

/-- The `str(e)` of the `TypeError` raised by the missing `sector` argument
(background_jobs.py 431-439), recorded in the failed list at line 452-455. -/
def sectorTypeErrorMsg : String :=
  "_store_memory_with_retry() missing 1 required positional argument: sector"

/-- Classification of one candidate by the loop body of
`_store_memories_with_deduplication` (background_jobs.py 341-456), given the
batch lookup result `simMap`. -/
def processMemoryOutcome (sha : String → String) (st : Store) (thr : ℚ)
    (maxA d : Nat) (simMap : List (String × Option StoredMemory))
    (m : Candidate) : RecordOutcome :=
  let content := m.content.getD ""
  let category := m.category.getD "factual"
  let importance := m.importance.getD 5
  if content = "" then .skippedEmpty
  else if validateMemoryContent content then
    let contentHash := getContentHash sha content
    let fromMap := alistGet contentHash simMap
    let similar0 : Option StoredMemory :=
      match fromMap with
      | some v => v
      | Option.none => Option.none
    -- background_jobs.py 370: fall back to the individual check only when
    -- the hash is absent from the batch map, not when it maps to None.
    let similarMemory : Option StoredMemory :=
      if similar0 = Option.none ∧ fromMap = Option.none then
        findSimilarMemory sha st content thr (some contentHash)
      else similar0
    match similarMemory with
    | some sim =>
      let simContent := sim.content.getD ""
      let simCategory := sim.category.getD ""
      let simImportance := sim.importance.getD 0
      -- background_jobs.py 386-389: the conflict test.
      if pyLower simContent = pyLower content ∧
          (simCategory ≠ category ∨ 2 < (simImportance - importance).natAbs) then
        match storeMemoryWithRetry (st.storeSeq content) maxA d with
        | (some id, _, _) =>
          .conflictStored id ⟨simCategory, simImportance, category, importance⟩
        | (Option.none, _, _) =>
          .conflictStoreFailed ⟨simCategory, simImportance, category, importance⟩
      else
        match getMemoryId sim with
        | some mid =>
          if (reinforceMemoryWithRetry (st.reinforceSeq mid) maxA d).1 then
            .reinforcedOk mid
          else .reinforceFailed
        | Option.none => .reinforcedNoId
    | Option.none => .newStoreFailed
  else .rejectedContent

/-- Aggregated result of `_store_memories_with_deduplication`
(background_jobs.py 458-468), plus the ghost list of logged conflicts
(the `logger.warning("Conflict detected ...")` calls at line 393). -/
structure DedupResult where
  stored : List String
  reinforced : List String
  failed : List (Candidate × String)
  conflicts : List ConflictLog
deriving DecidableEq, Repr

def emptyDedupResult : DedupResult :=
  { stored := [], reinforced := [], failed := [], conflicts := [] }

/-- The singleton contribution of one record outcome to the result lists. -/
def outcomeContribution (m : Candidate) : RecordOutcome → DedupResult
  | .skippedEmpty => emptyDedupResult
  | .rejectedContent =>
    { emptyDedupResult with
      failed := [(m, "Content validation failed - system/config content detected")] }
  | .conflictStored id c =>
    { emptyDedupResult with stored := [id], conflicts := [c] }
  | .conflictStoreFailed c =>
    { emptyDedupResult with
      failed := [(m, "Failed to store conflicting memory after retries")],
      conflicts := [c] }
  | .reinforcedOk id => { emptyDedupResult with reinforced := [id] }
  | .reinforceFailed =>
    { emptyDedupResult with
      failed := [(m, "Failed to reinforce memory after retries")] }
  | .reinforcedNoId => emptyDedupResult
  | .newStoreFailed =>
    { emptyDedupResult with failed := [(m, sectorTypeErrorMsg)] }

/-- Append the contribution of one record to the accumulated result. -/
def applyOutcome (acc : DedupResult) (m : Candidate) (o : RecordOutcome) :
    DedupResult :=
  { stored := acc.stored ++ (outcomeContribution m o).stored,
    reinforced := acc.reinforced ++ (outcomeContribution m o).reinforced,
    failed := acc.failed ++ (outcomeContribution m o).failed,
    conflicts := acc.conflicts ++ (outcomeContribution m o).conflicts }

/-- Embedding of `_store_memories_with_deduplication`
(background_jobs.py 292-477): one batch lookup, then the per-memory loop.
The caller-level `except` at lines 334-336 (which would fall back to
`similar_memories_map = {}`) is unreachable, because
`batch_find_similar_memories` catches every exception itself. -/
def storeMemoriesWithDeduplication (sha : String → String) (st : Store)
    (thr : ℚ) (maxA d : Nat) (memories : List Candidate) : DedupResult :=
  let simMap := batchFindSimilarMemories sha st thr memories
  memories.foldl
    (fun acc m => applyOutcome acc m (processMemoryOutcome sha st thr maxA d simMap m))
    emptyDedupResult

/-- The per-record outcome of a whole batch run, as a function of the
candidate alone (the batch map is computed once from the full list). -/
def batchOutcomeOf (sha : String → String) (st : Store) (thr : ℚ)
    (maxA d : Nat) (memories : List Candidate) (m : Candidate) : RecordOutcome :=
  processMemoryOutcome sha st thr maxA d
    (batchFindSimilarMemories sha st thr memories) m

/-! ## Job-level retry and failure artifact —
`src/backend/app/background_jobs.py`, lines 110-258 -/

/-- A queued extraction job (background_jobs.py 26-44). -/
structure Job where
  conversationId : String
  agentId : String
  callerId : String
  transcript : List Msg
  duration : Int
  status : String
deriving DecidableEq, Repr

/-- Outcome of one whole attempt of the job body (profile fetch, extraction,
storage, cache invalidation): it returns normally with memories stored, it
returns early because nothing was extracted (background_jobs.py 145-150),
or it raises. -/
inductive JobAttemptResult where
  | success
  | noMemories
  | raised (msg : String)
deriving DecidableEq, Repr

def isRaised : JobAttemptResult → Bool
  | .raised _ => true
  | _ => false

/-- `retry_delays = [60, 300, 1800]` (background_jobs.py 124). -/
def jobRetryDelays : List Nat := [60, 300, 1800]

/-- `max_retries = 3` (background_jobs.py 125). -/
def jobMaxRetries : Nat := 3

/-- The durable failure payload written by `_save_failed_transcript`
(background_jobs.py 230-241). -/
structure FailedPayload where
  conversationId : String
  agentId : String
  callerId : String
  transcript : List Msg
  duration : Int
  status : String
  extractionAttempts : Nat
  failedAt : String
  error : String
deriving DecidableEq, Repr

def mkFailedPayload (job : Job) (now : String) : FailedPayload :=
  { conversationId := job.conversationId, agentId := job.agentId,
    callerId := job.callerId, transcript := job.transcript,
    duration := job.duration, status := "extraction_failed",
    extractionAttempts := 3, failedAt := now,
    error := "Memory extraction failed after 3 retry attempts" }

/-- Trace of one `_process_job` run: attempts performed, sleeps between
them, and the failure artifact (keyed by conversation id, the key used by
`save_transcription_payload` in storage.py 14-48) if one was written. -/
structure JobTrace where
  attemptsMade : Nat
  sleeps : List Nat
  artifact : Option (String × FailedPayload)
  completed : Bool
deriving DecidableEq, Repr

/-- The retry loop of `_process_job` (background_jobs.py 124-213) from a
given attempt index: a raising attempt either writes the durable artifact
and stops (last attempt, lines 200-206) or sleeps `retry_delays[attempt]`
and retries (lines 208-213); any other outcome returns. -/
def processJobGo (f : Nat → JobAttemptResult) (job : Job) (now : String)
    (attempt : Nat) : JobTrace :=
  if _h : attempt < jobMaxRetries then
    match f attempt with
    | .raised _ =>
      if attempt = jobMaxRetries - 1 then
        { attemptsMade := attempt + 1, sleeps := [],
          artifact := some (job.conversationId, mkFailedPayload job now),
          completed := false }
      else
        let rest := processJobGo f job now (attempt + 1)
        { rest with sleeps := jobRetryDelays.getD attempt 0 :: rest.sleeps }
    | _ =>
      { attemptsMade := attempt + 1, sleeps := [], artifact := Option.none,
        completed := true }
  else
    { attemptsMade := attempt, sleeps := [], artifact := Option.none,
      completed := false }
termination_by jobMaxRetries - attempt
decreasing_by omega

/-- `_process_job` (background_jobs.py 110-213). -/
def processJobModel (f : Nat → JobAttemptResult) (job : Job) (now : String) :
    JobTrace :=
  processJobGo f job now 0

/-! ## The worker loop — `src/backend/app/background_jobs.py`, lines 87-108

`_worker` runs `while self.running`, polls the queue with a timeout
(`Empty` just continues), and wraps the whole body in `try/except` so that
any exception escaping a job is logged and the loop continues.  The running
flag and the queue are external (flipped by `stop()`, filled by
`enqueue_job`), modelled as functions of the iteration index; `fuel` bounds
the observation window of the infinite loop. -/

def workerRun (running : Nat → Bool) (queueGet : Nat → Option Job)
    (process : Job → Except String Unit) : Nat → Nat → List (Job × Bool)
  | 0, _ => []
  | fuel + 1, iter =>
    if running iter then
      match queueGet iter with
      | Option.none => workerRun running queueGet process fuel (iter + 1)
      | some j =>
        let ok := match process j with
          | Except.ok _ => true
          | Except.error _ => false
        (j, ok) :: workerRun running queueGet process fuel (iter + 1)
    else []

/-! ## The TTL read cache — `src/backend/app/memory_cache.py`

`time.time()` is modelled as an explicit rational `now` argument to each
operation; entries carry their own timestamp and TTL, exactly as in the
source dict. -/

structure CEntry where
  memories : List String
  timestamp : ℚ
  ttl : ℚ
deriving DecidableEq, Repr

structure MCache where
  cache : List (String × CEntry)
  defaultTtl : ℚ
  lastCleanup : ℚ
deriving DecidableEq, Repr

/-- `_get_cache_key` (memory_cache.py 39-43): a falsy `agent_id` (absent or
empty) selects the wildcard key. -/
def cacheKey (caller : String) (agent : Option String) : String :=
  match agent with
  | some a => if a ≠ "" then caller ++ ":" ++ a else caller ++ ":*"
  | Option.none => caller ++ ":*"

/-- `_is_expired` (memory_cache.py 45-49): `time.time() - timestamp > ttl`. -/
def isExpired (now : ℚ) (e : CEntry) : Bool := now - e.timestamp > e.ttl

/-- `_cleanup_expired` (memory_cache.py 51-68): a no-op within 300 seconds
of the previous sweep, otherwise drop expired entries. -/
def cleanupExpired (c : MCache) (now : ℚ) : MCache :=
  if now - c.lastCleanup < 300 then c
  else
    { c with
      cache := c.cache.filter (fun p => ! isExpired now p.2)
      lastCleanup := now }

/-- `get` (memory_cache.py 70-99): lazy expiry check on read; an expired
entry is deleted and `None` returned. -/
def cacheGet (c : MCache) (now : ℚ) (caller : String) (agent : Option String) :
    Option (List String) × MCache :=
  let c1 := cleanupExpired c now
  let key := cacheKey caller agent
  match alistGet key c1.cache with
  | Option.none => (Option.none, c1)
  | some e =>
    if isExpired now e then (Option.none, { c1 with cache := alistDel key c1.cache })
    else (some e.memories, c1)

/-- `set` (memory_cache.py 101-127): `ttl or self.default_ttl`, so a falsy
(absent or zero) TTL argument falls back to the default. -/
def cacheSet (c : MCache) (now : ℚ) (caller : String) (memories : List String)
    (agent : Option String) (ttl : Option ℚ) : MCache :=
  let c1 := cleanupExpired c now
  let key := cacheKey caller agent
  let t : ℚ := match ttl with
    | some v => if v ≠ 0 then v else c1.defaultTtl
    | Option.none => c1.defaultTtl
  { c1 with cache := alistPut key { memories := memories, timestamp := now, ttl := t } c1.cache }

/-- Python `if key in d: del d[key]` (memory_cache.py 143-144, 150-151). -/
def delIfPresent (k : String) (l : List (String × CEntry)) :
    List (String × CEntry) :=
  if (alistGet k l).isSome then alistDel k l else l

/-- `invalidate` (memory_cache.py 129-152): delete the key, and — when a
truthy `agent_id` was given — also the wildcard key of the caller. -/
def cacheInvalidate (c : MCache) (caller : String) (agent : Option String) :
    MCache :=
  let key := cacheKey caller agent
  let cache1 := delIfPresent key c.cache
  match agent with
  | some a =>
    if a ≠ "" then
      let wkey := cacheKey caller Option.none
      { c with cache := delIfPresent wkey cache1 }
    else { c with cache := cache1 }
  | Option.none => { c with cache := cache1 }

/-! ## Concrete fixtures used by witnesses and counterexamples -/

/-- A stand-in for the external SHA-256 hex digest: a fixed 64-character
output, used to discharge the digest-length hypothesis in witnesses. -/
def sha64 : String → String :=
  fun _ => "0000000000000000000000000000000000000000000000000000000000000000"

/-- A concrete injective-on-our-inputs stand-in digest for pipeline runs. -/
def shaTag : String → String := fun s => "#" ++ s

/-- Existing memory for the C1 scenario: an exact duplicate (by stored
content hash) of the candidate below. -/
def simC1 : StoredMemory :=
  { id := some "em1", memoryId := Option.none, content := some "Alice likes tea",
    score := Option.none, category := some "factual", importance := some 5,
    contentHash := some (getContentHash shaTag "Alice likes tea") }

def candC1 : Candidate :=
  { content := some "Alice likes tea", category := some "factual",
    sector := some "semantic", importance := some 5, entities := some [] }

/-- A healthy store for the C1 scenario. -/
def okStoreC1 : Store :=
  { existing := [simC1], semanticTop := fun _ => Option.none,
    searchAllFails := false, searchHashFails := false, searchSemFails := false,
    storeSeq := fun _ _ => .ok "new1", reinforceSeq := fun _ _ => .ok }

/-- The same store with the batch `search_memories` call raising. -/
def failStoreC1 : Store := { okStoreC1 with searchAllFails := true }

/-- Existing memory for the C2 counterexample: its raw content has a double
space, so it equals the candidate content after whitespace-collapsing
normalization (same content hash) but not under a plain case-insensitive
comparison. -/
def simC2 : StoredMemory :=
  { id := some "m1", memoryId := Option.none, content := some "John likes  tea",
    score := Option.none, category := some "factual", importance := some 5,
    contentHash := some (getContentHash shaTag "John likes  tea") }

def candC2 : Candidate :=
  { content := some "john likes tea", category := some "preference",
    sector := some "semantic", importance := some 5, entities := some [] }

def storeC2 : Store := { okStoreC1 with existing := [simC2] }

/-- Transcript for the C3 non-termination scenario (budget 4 tokens,
overlap budget 2): agent 3 tokens, agent 2 tokens, an over-budget user
message of 5 tokens, agent 2 tokens.  Splitting before the user message
re-seeds a 2-token overlap, and overlap + message exceeds the budget again
forever. -/
def msgA3 : Msg := { role := some "agent", message := some "hello" }

def msgB3 : Msg := { role := some "agent", message := some "x" }

def msgC3 : Msg := { role := some "user", message := some "hello everyone" }

def msgD3 : Msg := { role := some "agent", message := some "x" }

def transcriptC3 : List Msg := [msgA3, msgB3, msgC3, msgD3]

/-- Transcript for the C4 counterexample: same shape, but the over-budget
5-token message is the final agent message. -/
def msgC4 : Msg := { role := some "agent", message := some "hello everyone" }

def transcriptC4 : List Msg := [msgA3, msgB3, msgC4]

/-- A terminating multi-chunk transcript for the C4 witness (budget 4,
overlap budget 0). -/
def transcriptW : List Msg := [msgA3, msgB3, msgA3]

def chunksW : List Chunk := (chunkTranscript 10 4 0 transcriptW).getD []

/-- Existing memory for the C2 witness: its raw content equals the
candidate content case-insensitively character-for-character, with a
different category, so the conflict branch fires. -/
def simC2w : StoredMemory :=
  { id := some "m2", memoryId := Option.none, content := some "John Likes Tea",
    score := Option.none, category := some "factual", importance := some 5,
    contentHash := some (getContentHash shaTag "john likes tea") }

def candC2w : Candidate :=
  { content := some "john likes tea", category := some "preference",
    sector := some "semantic", importance := some 5, entities := some [] }

def storeC2w : Store :=
  { existing := [simC2w], semanticTop := fun _ => Option.none,
    searchAllFails := false, searchHashFails := false, searchSemFails := false,
    storeSeq := fun _ _ => .ok "new2", reinforceSeq := fun _ _ => .ok }

/-- The validated record the C7 coercion examples evaluate to. -/
def vmX : ValidatedMemory :=
  { content := "x", category := "factual", importance := 5, entities := [] }

/-- The job of the C5 witness. -/
def jobC5 : Job :=
  { conversationId := "conv1", agentId := "agent1", callerId := "+15550001111",
    transcript := [msgA3], duration := 42, status := "done" }

/-! ## Helper lemmas on association lists -/

theorem alistGet_put {α : Type} (k k2 : String) (v : α) :
    ∀ l : List (String × α),
      alistGet k (alistPut k2 v l) = if k2 = k then some v else alistGet k l := by
  intro l
  induction l with
  | nil => by_cases hk : k2 = k <;> simp [alistPut, alistGet, hk]
  | cons p rest ih =>
    by_cases h : p.1 = k2
    · by_cases hk : k2 = k
      · simp [alistPut, h, alistGet, hk]
      · have hpk : ¬ p.1 = k := by rw [h]; exact hk
        simp [alistPut, h, alistGet, hk, hpk]
    · by_cases h2 : p.1 = k
      · have hne : ¬ k2 = k := fun he => h (by rw [h2, he])
        have hne2 : ¬ k = k2 := fun he => hne he.symm
        simp [alistPut, h, alistGet, h2, hne, hne2]
      · simp [alistPut, h, alistGet, h2, ih]

theorem alistGet_del {α : Type} (k : String) :
    ∀ l : List (String × α), alistGet k (alistDel k l) = Option.none := by
  intro l
  induction l with
  | nil => simp [alistDel, alistGet]
  | cons p rest ih =>
    by_cases h : p.1 = k
    · simp [alistDel, h, ih]
    · simp [alistDel, h, alistGet, ih]

theorem alistGet_none_of_filter {α : Type} (k : String) (p : String × α → Bool) :
    ∀ l : List (String × α),
      alistGet k l = Option.none → alistGet k (l.filter p) = Option.none := by
  intro l
  induction l with
  | nil => simp [alistGet]
  | cons q rest ih =>
    intro h
    have h1 : ¬ q.1 = k := by
      intro he
      simp [alistGet, he] at h
    have h2 : alistGet k rest = Option.none := by
      simpa [alistGet, h1] using h
    by_cases hp : p q
    · simpa [List.filter, hp, alistGet, h1] using ih h2
    · simpa [List.filter, hp] using ih h2

theorem alistGet_mem {α : Type} (k : String) (v : α) :
    ∀ l : List (String × α), alistGet k l = some v → (k, v) ∈ l := by
  intro l
  induction l with
  | nil => simp [alistGet]
  | cons q rest ih =>
    intro h
    obtain ⟨q1, q2⟩ := q
    by_cases hq : q1 = k
    · subst hq
      simp only [alistGet, if_pos rfl] at h
      cases h
      exact List.mem_cons_self _ _
    · have hq2 : ¬ (q1, q2).1 = k := hq
      simp only [alistGet, if_neg hq2] at h
      exact List.mem_cons_of_mem _ (ih h)

theorem alistGet_of_mem_nodup {α : Type} (k : String) (v : α) :
    ∀ l : List (String × α), (l.map Prod.fst).Nodup → (k, v) ∈ l →
      alistGet k l = some v := by
  intro l
  induction l with
  | nil => simp
  | cons q rest ih =>
    intro hnd hm
    have hnd2 : (rest.map Prod.fst).Nodup := (List.nodup_cons.mp hnd).2
    have hq1 : q.1 ∉ rest.map Prod.fst := (List.nodup_cons.mp hnd).1
    rcases List.mem_cons.mp hm with h | h
    · cases h
      simp [alistGet]
    · have hk : k ∈ rest.map Prod.fst := List.mem_map.mpr ⟨(k, v), h, rfl⟩
      have hne : ¬ q.1 = k := fun he => hq1 (he ▸ hk)
      simp [alistGet, hne, ih hnd2 h]

theorem keys_nodup_put {α : Type} (k : String) (v : α) :
    ∀ l : List (String × α), (l.map Prod.fst).Nodup →
      ((alistPut k v l).map Prod.fst).Nodup := by
  intro l
  induction l with
  | nil => simp [alistPut]
  | cons q rest ih =>
    intro hnd
    have hnd2 : (rest.map Prod.fst).Nodup := (List.nodup_cons.mp hnd).2
    have hq1 : q.1 ∉ rest.map Prod.fst := (List.nodup_cons.mp hnd).1
    by_cases h : q.1 = k
    · have hput : alistPut k v (q :: rest) = (k, v) :: rest := by
        simp [alistPut, h]
      rw [h] at hq1
      rw [hput, List.map_cons, List.nodup_cons]
      exact ⟨hq1, hnd2⟩
    · have hput : alistPut k v (q :: rest) = q :: alistPut k v rest := by
        simp [alistPut, h]
      have hkeys : (alistPut k v rest).map Prod.fst =
          if k ∈ rest.map Prod.fst then rest.map Prod.fst
          else rest.map Prod.fst ++ [k] := by
        clear hq1 hnd hnd2 ih h hput
        induction rest with
        | nil => simp [alistPut]
        | cons r rr ihr =>
          by_cases hr : r.1 = k
          · simp [alistPut, hr]
          · have hkr : ¬ k = r.1 := fun he => hr he.symm
            by_cases hmem : k ∈ rr.map Prod.fst <;>
              simp [alistPut, hr, ihr, hmem, hkr]
      rw [hput, List.map_cons, List.nodup_cons, hkeys]
      by_cases hmem : k ∈ rest.map Prod.fst
      · simp only [if_pos hmem]
        exact ⟨hq1, hnd2⟩
      · simp only [if_neg hmem]
        refine ⟨?_, ?_⟩
        · intro hq
          rcases List.mem_append.mp hq with h1 | h1
          · exact hq1 h1
          · exact h (List.mem_singleton.mp h1)
        · have := ih hnd2
          rw [hkeys, if_neg hmem] at this
          exact this

/-! ## C10 — the empty content hash -/

/-- C10: `get_content_hash` on the empty string returns the empty string
(not the 64-hex-character SHA-256 digest of `""`), and the hash index built
by `batch_find_similar_memories` skips falsy hashes, so the empty hash is
never a key of the exact-match index: two empty-content memories can never
be matched to each other by the exact-hash phase. -/
theorem C10_empty_content_hash (sha : String → String)
    (hlen : ∀ s, (sha s).length = 64) :
    getContentHash sha "" = "" ∧
    getContentHash sha "" ≠ sha "" ∧
    ∀ existing : List StoredMemory,
      alistGet "" (buildExistingIndex existing) = Option.none := by
  refine ⟨rfl, ?_, ?_⟩
  · intro h
    have h64 := hlen ""
    rw [← h] at h64
    simp [getContentHash] at h64
  · have step : ∀ (l : List StoredMemory) (acc : List (String × StoredMemory)),
        alistGet "" acc = Option.none →
        alistGet "" (l.foldl existingIndexStep acc) = Option.none := by
      intro l
      induction l with
      | nil => intro acc h; simpa using h
      | cons e rest ih =>
        intro acc h
        rw [List.foldl_cons]
        rcases he : e.contentHash with _ | hv
        · have hs : existingIndexStep acc e = acc := by
            simp [existingIndexStep, he]
          rw [hs]
          exact ih acc h
        · by_cases hne : hv = ""
          · have hs : existingIndexStep acc e = acc := by
              simp [existingIndexStep, he, hne]
            rw [hs]
            exact ih acc h
          · have hs : existingIndexStep acc e = alistPut hv e acc := by
              simp [existingIndexStep, he, hne]
            rw [hs]
            refine ih _ ?_
            rw [alistGet_put]
            simp [hne, h]
    intro existing
    exact step existing [] rfl

/-- Closed witness for C10 at the constant 64-character digest. -/
theorem C10_empty_content_hash_witness :
    getContentHash sha64 "" = "" ∧ getContentHash sha64 "" ≠ sha64 "" := by
  have h := C10_empty_content_hash sha64 (fun s => rfl)
  exact ⟨h.1, h.2.1⟩

/-! ## C7 — extraction-result validation -/

theorem coerceCategory_mem (v : PyVal) : coerceCategory v ∈ validCategories := by
  cases v with
  | str c =>
    simp only [coerceCategory]
    split
    case isTrue h => exact h
    case isFalse _ => simp [validCategories]
  | int n => simp [coerceCategory, validCategories]
  | bool b => simp [coerceCategory, validCategories]
  | list xs => simp [coerceCategory, validCategories]
  | dict kvs => simp [coerceCategory, validCategories]
  | none => simp [coerceCategory, validCategories]

theorem coerceImportance_bounds (v : PyVal) :
    1 ≤ coerceImportance v ∧ coerceImportance v ≤ 10 := by
  cases v with
  | int n =>
    simp only [coerceImportance]
    split
    case isTrue _ => omega
    case isFalse h => omega
  | bool b => cases b <;> norm_num [coerceImportance]
  | str s => norm_num [coerceImportance]
  | list xs => norm_num [coerceImportance]
  | dict kvs => norm_num [coerceImportance]
  | none => norm_num [coerceImportance]

theorem validateOne_shape (m : PyVal) (v : ValidatedMemory)
    (hm : validateOne m = some v) :
    v.content ≠ "" ∧ v.category ∈ validCategories ∧
    1 ≤ v.importance ∧ v.importance ≤ 10 := by
  cases m with
  | dict kvs =>
    simp only [validateOne] at hm
    split at hm
    case h_2 => exact absurd hm (by simp)
    case h_1 s hs =>
      split at hm
      · exact absurd hm (by simp)
      case isFalse hne =>
        cases hm
        exact ⟨hne, coerceCategory_mem _, (coerceImportance_bounds _).1,
          (coerceImportance_bounds _).2⟩
  | str s => simp [validateOne] at hm
  | int n => simp [validateOne] at hm
  | bool b => simp [validateOne] at hm
  | list xs => simp [validateOne] at hm
  | none => simp [validateOne] at hm

/-- C7: every record produced by `_validate_memory_response` has a
non-empty string content, a category from the five-value taxonomy, and an
integer importance in [1,10]; a record with non-string or empty content is
rejected outright (not coerced); importance 15 is coerced to 5, category
"bogus" to "factual", and non-list entities to the empty list. -/
theorem C7_extraction_validation :
    (∀ (ms : List PyVal) (v : ValidatedMemory), v ∈ validateMemoryResponse ms →
      v.content ≠ "" ∧ v.category ∈ validCategories ∧
      1 ≤ v.importance ∧ v.importance ≤ 10) ∧
    (∀ kvs : List (String × PyVal),
      contentIsValid (pyGet kvs "content" (.str "")) = false →
      validateOne (.dict kvs) = Option.none) ∧
    validateMemoryResponse [.dict [("content", .str "x"), ("importance", .int 15)]] =
      [{ content := "x", category := "factual", importance := 5, entities := [] }] ∧
    validateMemoryResponse [.dict [("content", .str "x"), ("category", .str "bogus")]] =
      [{ content := "x", category := "factual", importance := 5, entities := [] }] ∧
    validateMemoryResponse [.dict [("content", .str "x"), ("entities", .int 3)]] =
      [{ content := "x", category := "factual", importance := 5, entities := [] }] := by
  refine ⟨?_, ?_, rfl, rfl, rfl⟩
  · intro ms v hv
    rw [validateMemoryResponse, List.mem_filterMap] at hv
    obtain ⟨m, _, hm⟩ := hv
    exact validateOne_shape m v hm
  · intro kvs h
    simp only [validateOne]
    split
    case h_2 => rfl
    case h_1 s hs =>
      rw [hs] at h
      simp only [contentIsValid, decide_eq_false_iff_not, not_not] at h
      simp [h]

/-- Closed witness for C7 at a concrete raw record. -/
theorem C7_extraction_validation_witness :
    vmX ∈ validateMemoryResponse
      [.dict [("content", .str "x"), ("importance", .int 15)]] ∧
    vmX.content ≠ "" ∧ vmX.category ∈ validCategories := by
  have hmem : vmX ∈ validateMemoryResponse
      [.dict [("content", .str "x"), ("importance", .int 15)]] := by
    rw [show validateMemoryResponse
        [.dict [("content", .str "x"), ("importance", .int 15)]] = [vmX] from rfl]
    exact List.mem_singleton.mpr rfl
  have h := C7_extraction_validation.1 _ _ hmem
  exact ⟨hmem, h.1, h.2.1⟩

/-! ## C6 — retrying storage -/

theorem storeRetryAux_exhaust (f : Nat → StoreOutcome) (maxA d : Nat)
    (hf : ∀ k id, f k ≠ .ok id) :
    ∀ remaining attempt, remaining + attempt = maxA →
      storeRetryAux f maxA d remaining attempt =
        (Option.none, maxA,
          (List.range (maxA - 1 - attempt)).map (fun j => d * 2 ^ (attempt + j))) := by
  intro remaining
  induction remaining with
  | zero =>
    intro attempt h1
    have he : attempt = maxA := by omega
    subst he
    simp [storeRetryAux]
  | succ n ih =>
    intro attempt h1
    have hrest := ih (attempt + 1) (by omega)
    cases hfa : f attempt with
    | ok id => exact absurd hfa (hf attempt id)
    | failNone =>
      simp only [storeRetryAux]
      rw [hfa, hrest]
      by_cases hmid : attempt < maxA - 1
      · rw [if_pos hmid]
        have hk : maxA - 1 - attempt = (maxA - 1 - (attempt + 1)) + 1 := by omega
        rw [hk, List.range_succ_eq_map, List.map_cons, List.map_map]
        simp only [Nat.add_zero, Prod.mk.injEq, true_and]
        congr 1
        apply List.map_congr_left
        intro j _
        simp only [Function.comp_apply]
        have he : attempt + j.succ = attempt + 1 + j := by omega
        rw [he]
      · rw [if_neg hmid]
        have h0 : maxA - 1 - attempt = 0 := by omega
        have h2 : maxA - 1 - (attempt + 1) = 0 := by omega
        simp [h0, h2]
    | raised m =>
      simp only [storeRetryAux]
      rw [hfa, hrest]
      by_cases hmid : attempt < maxA - 1
      · rw [if_pos hmid]
        have hk : maxA - 1 - attempt = (maxA - 1 - (attempt + 1)) + 1 := by omega
        rw [hk, List.range_succ_eq_map, List.map_cons, List.map_map]
        simp only [Nat.add_zero, Prod.mk.injEq, true_and]
        congr 1
        apply List.map_congr_left
        intro j _
        simp only [Function.comp_apply]
        have he : attempt + j.succ = attempt + 1 + j := by omega
        rw [he]
      · rw [if_neg hmid]
        have h0 : maxA - 1 - attempt = 0 := by omega
        have h2 : maxA - 1 - (attempt + 1) = 0 := by omega
        simp [h0, h2]

theorem reinforceRetryAux_exhaust (f : Nat → ReinfOutcome) (maxA d : Nat)
    (hf : ∀ k, f k ≠ .ok) :
    ∀ remaining attempt, remaining + attempt = maxA →
      reinforceRetryAux f maxA d remaining attempt =
        (false, maxA,
          (List.range (maxA - 1 - attempt)).map (fun j => d * 2 ^ (attempt + j))) := by
  intro remaining
  induction remaining with
  | zero =>
    intro attempt h1
    have he : attempt = maxA := by omega
    subst he
    simp [reinforceRetryAux]
  | succ n ih =>
    intro attempt h1
    have hrest := ih (attempt + 1) (by omega)
    cases hfa : f attempt with
    | ok => exact absurd hfa (hf attempt)
    | failFalse =>
      simp only [reinforceRetryAux]
      rw [hfa, hrest]
      by_cases hmid : attempt < maxA - 1
      · rw [if_pos hmid]
        have hk : maxA - 1 - attempt = (maxA - 1 - (attempt + 1)) + 1 := by omega
        rw [hk, List.range_succ_eq_map, List.map_cons, List.map_map]
        simp only [Nat.add_zero, Prod.mk.injEq, true_and]
        congr 1
        apply List.map_congr_left
        intro j _
        simp only [Function.comp_apply]
        have he : attempt + j.succ = attempt + 1 + j := by omega
        rw [he]
      · rw [if_neg hmid]
        have h0 : maxA - 1 - attempt = 0 := by omega
        have h2 : maxA - 1 - (attempt + 1) = 0 := by omega
        simp [h0, h2]
    | raised m =>
      simp only [reinforceRetryAux]
      rw [hfa, hrest]
      by_cases hmid : attempt < maxA - 1
      · rw [if_pos hmid]
        have hk : maxA - 1 - attempt = (maxA - 1 - (attempt + 1)) + 1 := by omega
        rw [hk, List.range_succ_eq_map, List.map_cons, List.map_map]
        simp only [Nat.add_zero, Prod.mk.injEq, true_and]
        congr 1
        apply List.map_congr_left
        intro j _
        simp only [Function.comp_apply]
        have he : attempt + j.succ = attempt + 1 + j := by omega
        rw [he]
      · rw [if_neg hmid]
        have h0 : maxA - 1 - attempt = 0 := by omega
        have h2 : maxA - 1 - (attempt + 1) = 0 := by omega
        simp [h0, h2]

theorem foldl_applyOutcome (g : Candidate → RecordOutcome) :
    ∀ (ms : List Candidate) (acc : DedupResult),
      ms.foldl (fun a m => applyOutcome a m (g m)) acc =
        { stored := acc.stored ++
            (ms.map (fun m => (outcomeContribution m (g m)).stored)).flatten
          reinforced := acc.reinforced ++
            (ms.map (fun m => (outcomeContribution m (g m)).reinforced)).flatten
          failed := acc.failed ++
            (ms.map (fun m => (outcomeContribution m (g m)).failed)).flatten
          conflicts := acc.conflicts ++
            (ms.map (fun m => (outcomeContribution m (g m)).conflicts)).flatten } := by
  intro ms
  induction ms with
  | nil => intro acc; simp
  | cons m rest ih =>
    intro acc
    rw [List.foldl_cons, ih]
    simp [applyOutcome, List.append_assoc]

/-- C6: a store (or reinforce) call failing on every attempt — by raising
or by returning a non-success result — is attempted exactly `max_attempts`
times with exponential backoff sleeps `d * 2 ^ k` between consecutive
attempts, ending in a failure result; and the batch result is the
concatenation of per-record contributions, so exhausted
retries of one record never prevent the remaining records from being processed. -/
theorem C6_storage_retry :
    (∀ (f : Nat → StoreOutcome) (maxA d : Nat), (∀ k id, f k ≠ .ok id) →
      storeMemoryWithRetry f maxA d =
        (Option.none, maxA, (List.range (maxA - 1)).map (fun k => d * 2 ^ k))) ∧
    (∀ (f : Nat → ReinfOutcome) (maxA d : Nat), (∀ k, f k ≠ .ok) →
      reinforceMemoryWithRetry f maxA d =
        (false, maxA, (List.range (maxA - 1)).map (fun k => d * 2 ^ k))) ∧
    (∀ (sha : String → String) (st : Store) (thr : ℚ) (maxA d : Nat)
        (ms : List Candidate),
      storeMemoriesWithDeduplication sha st thr maxA d ms =
        { stored := (ms.map (fun m =>
            (outcomeContribution m (batchOutcomeOf sha st thr maxA d ms m)).stored)).flatten
          reinforced := (ms.map (fun m =>
            (outcomeContribution m (batchOutcomeOf sha st thr maxA d ms m)).reinforced)).flatten
          failed := (ms.map (fun m =>
            (outcomeContribution m (batchOutcomeOf sha st thr maxA d ms m)).failed)).flatten
          conflicts := (ms.map (fun m =>
            (outcomeContribution m (batchOutcomeOf sha st thr maxA d ms m)).conflicts)).flatten }) := by
  refine ⟨?_, ?_, ?_⟩
  · intro f maxA d hf
    have h := storeRetryAux_exhaust f maxA d hf maxA 0 (by omega)
    simpa [storeMemoryWithRetry] using h
  · intro f maxA d hf
    have h := reinforceRetryAux_exhaust f maxA d hf maxA 0 (by omega)
    simpa [reinforceMemoryWithRetry] using h
  · intro sha st thr maxA d ms
    rw [storeMemoriesWithDeduplication]
    exact foldl_applyOutcome
      (fun m => processMemoryOutcome sha st thr maxA d
        (batchFindSimilarMemories sha st thr ms) m) ms emptyDedupResult

/-- Closed witness for C6: a store that always raises, at the default
settings (3 attempts, base delay 1 second), is called exactly 3 times with
sleeps of 1 and 2 seconds and ends unsuccessfully. -/
theorem C6_storage_retry_witness :
    storeMemoryWithRetry (fun _ => .raised "boom") memoryStorageRetryAttempts
        memoryStorageRetryDelaySeconds = (Option.none, 3, [1, 2]) ∧
    reinforceMemoryWithRetry (fun _ => .raised "boom") memoryStorageRetryAttempts
        memoryStorageRetryDelaySeconds = (false, 3, [1, 2]) := by
  constructor
  · have h := C6_storage_retry.1 (fun _ => .raised "boom")
      memoryStorageRetryAttempts memoryStorageRetryDelaySeconds
      (fun k id h => by simp at h)
    rw [h]
    rfl
  · have h := C6_storage_retry.2.1 (fun _ => .raised "boom")
      memoryStorageRetryAttempts memoryStorageRetryDelaySeconds
      (fun k h => by simp at h)
    rw [h]
    rfl

/-! ## C5 — job-level retry and the durable failure artifact -/

/-- C5: a job whose processing raises on every attempt is attempted
exactly 3 times (never more); the sleeps between consecutive attempts are
the leading entries of the escalating schedule [60, 300, 1800] seconds —
with 3 attempts, the two gaps sleep 60 then 300 seconds; after the final
failed attempt no retry follows and a durable artifact keyed by the
conversation id is written with status `"extraction_failed"`, the attempt
count, the failure time, the transcript and the duration. -/
theorem C5_job_retry (f : Nat → JobAttemptResult) (job : Job) (now : String)
    (hf : ∀ k, isRaised (f k) = true) :
    processJobModel f job now =
      { attemptsMade := 3, sleeps := [60, 300],
        artifact := some (job.conversationId, mkFailedPayload job now),
        completed := false } ∧
    [60, 300] = jobRetryDelays.take (jobMaxRetries - 1) ∧
    (mkFailedPayload job now).status = "extraction_failed" ∧
    (mkFailedPayload job now).extractionAttempts = 3 ∧
    (mkFailedPayload job now).failedAt = now ∧
    (mkFailedPayload job now).transcript = job.transcript ∧
    (mkFailedPayload job now).duration = job.duration := by
  have hex : ∀ k, ∃ m, f k = .raised m := by
    intro k
    have hk := hf k
    cases hfa : f k with
    | raised m => exact ⟨m, rfl⟩
    | success => rw [hfa] at hk; simp [isRaised] at hk
    | noMemories => rw [hfa] at hk; simp [isRaised] at hk
  obtain ⟨m0, hm0⟩ := hex 0
  obtain ⟨m1, hm1⟩ := hex 1
  obtain ⟨m2, hm2⟩ := hex 2
  have e2 : processJobGo f job now 2 =
      { attemptsMade := 3, sleeps := [],
        artifact := some (job.conversationId, mkFailedPayload job now),
        completed := false } := by
    rw [processJobGo, dif_pos (by norm_num [jobMaxRetries]), hm2]
    simp [jobMaxRetries]
  have e1 : processJobGo f job now 1 =
      { attemptsMade := 3, sleeps := [300],
        artifact := some (job.conversationId, mkFailedPayload job now),
        completed := false } := by
    rw [processJobGo, dif_pos (by norm_num [jobMaxRetries]), hm1]
    rw [if_neg (by norm_num [jobMaxRetries])]
    norm_num [e2, jobRetryDelays]
  have e0 : processJobGo f job now 0 =
      { attemptsMade := 3, sleeps := [60, 300],
        artifact := some (job.conversationId, mkFailedPayload job now),
        completed := false } := by
    rw [processJobGo, dif_pos (by norm_num [jobMaxRetries]), hm0]
    rw [if_neg (by norm_num [jobMaxRetries])]
    norm_num [e1, jobRetryDelays]
  exact ⟨e0, rfl, rfl, rfl, rfl, rfl, rfl⟩

/-- Closed witness for C5 at an always-raising job body. -/
theorem C5_job_retry_witness :
    processJobModel (fun _ => .raised "boom") jobC5 "2026-01-01T00:00:00" =
      { attemptsMade := 3, sleeps := [60, 300],
        artifact := some ("conv1", mkFailedPayload jobC5 "2026-01-01T00:00:00"),
        completed := false } := by
  have h := C5_job_retry (fun _ => .raised "boom") jobC5 "2026-01-01T00:00:00"
    (fun k => rfl)
  exact h.1

/-! ## C9 — the worker survives per-job failures -/

/-- C9: the sequence of jobs the worker dequeues and attempts depends only
on the running flag and the queue, never on whether processing raised: an
exception escaping one job is caught and the loop goes on to the next
dequeue; concretely, a failing job contributes `(job, false)` and the loop
continues at the next iteration while the running flag is true. -/
theorem C9_worker_resilience :
    (∀ (running : Nat → Bool) (queueGet : Nat → Option Job)
        (p1 p2 : Job → Except String Unit) (fuel iter : Nat),
      (workerRun running queueGet p1 fuel iter).map Prod.fst =
      (workerRun running queueGet p2 fuel iter).map Prod.fst) ∧
    (∀ (running : Nat → Bool) (queueGet : Nat → Option Job)
        (process : Job → Except String Unit) (fuel iter : Nat) (j : Job)
        (e : String),
      running iter = true → queueGet iter = some j → process j = .error e →
      workerRun running queueGet process (fuel + 1) iter =
        (j, false) :: workerRun running queueGet process fuel (iter + 1)) := by
  constructor
  · intro running queueGet p1 p2 fuel
    induction fuel with
    | zero => intro iter; rfl
    | succ n ih =>
      intro iter
      simp only [workerRun]
      by_cases hr : running iter
      · rw [if_pos hr, if_pos hr]
        cases hq : queueGet iter with
        | none => exact ih (iter + 1)
        | some j => simp only [List.map_cons]; rw [ih (iter + 1)]
      · rw [if_neg hr, if_neg hr]
  · intro running queueGet process fuel iter j e hr hq hp
    simp only [workerRun]
    rw [if_pos hr, hq]
    simp [hp]

/-- Closed witness for C9: a single failing job is recorded and the loop
continues to the next (empty) poll. -/
theorem C9_worker_resilience_witness :
    workerRun (fun _ => true)
      (fun i => if i = 0 then some jobC5 else Option.none)
      (fun _ => Except.error "boom") 2 0 = [(jobC5, false)] := by
  have h := C9_worker_resilience.2 (fun _ => true)
    (fun i => if i = 0 then some jobC5 else Option.none)
    (fun _ => Except.error "boom") 1 0 jobC5 "boom" rfl rfl rfl
  rw [h]
  rfl

/-! ## C1 — the batch-failure fallback does not run -/

/-- C1 (refuting evaluation): `simC1` is an exact duplicate of `candC1`
(same stored content hash), and with a healthy batch lookup the record is
reinforced.  But when the batch `search_memories` call raises, the
`except` handler inside `batch_find_similar_memories` returns every
candidate hash mapped to `None` (not an empty dict), the fallback
guard of the caller (`content_hash not in similar_memories_map`) is therefore false, no
per-record two-phase check runs, and the record is classified as having no
duplicate — it is not reinforced, contradicting the claimed fallback.
(Its subsequent new-store attempt then fails on the unrelated
missing-`sector` TypeError.) -/
theorem C1_batch_fallback_code_bug :
    simC1.contentHash = some (getContentHash shaTag "Alice likes tea") ∧
    storeMemoriesWithDeduplication shaTag okStoreC1
        memorySimilarityThreshold 3 1 [candC1] =
      { stored := [], reinforced := ["em1"], failed := [], conflicts := [] } ∧
    batchFindSimilarMemories shaTag failStoreC1
        memorySimilarityThreshold [candC1] =
      [(getContentHash shaTag "Alice likes tea", Option.none)] ∧
    storeMemoriesWithDeduplication shaTag failStoreC1
        memorySimilarityThreshold 3 1 [candC1] =
      { stored := [], reinforced := [],
        failed := [(candC1, sectorTypeErrorMsg)], conflicts := [] } := by
  refine ⟨rfl, by decide, by decide, by decide⟩

/-! ## C2 — the conflict rule -/

/-- C2 (counterexample to the claimed "in particular" consequence): the
candidate has the same *normalized* content as the existing memory (the
stored raw content differs only by a doubled space, so the content hashes
agree and the exact-hash phase matches) and a different category — yet the
pipeline *reinforces* the existing memory and logs no conflict and stores
nothing new, because the conflict test compares the raw contents only
case-insensitively (`similar_content.lower() == content.lower()`,
background_jobs.py 387), which the doubled space makes unequal. -/
theorem C2_normalized_conflict_counterexample :
    normalizeForHash "John likes  tea" = normalizeForHash "john likes tea" ∧
    getContentHash shaTag "John likes  tea" =
      getContentHash shaTag "john likes tea" ∧
    simC2.content = some "John likes  tea" ∧
    simC2.category = some "factual" ∧
    candC2.content = some "john likes tea" ∧
    candC2.category = some "preference" ∧
    storeMemoriesWithDeduplication shaTag storeC2
        memorySimilarityThreshold 3 1 [candC2] =
      { stored := [], reinforced := ["m1"], failed := [], conflicts := [] } := by
  refine ⟨by decide, by decide, rfl, rfl, rfl, rfl, by decide⟩

/-- C2 (amended): for a candidate matched by exact content hash to the one
existing memory of the pair, the conflict rule compares the matched
raw stored content of the matched memory to the candidate content case-insensitively
(not whitespace-normalized): if they are equal and the category differs or
the absolute importance difference exceeds 2, the candidate is stored as a
separate new memory and a conflict is logged; otherwise no new memory is
created and the matched memory is reinforced. -/
theorem C2_conflict_rule
    (sha : String → String) (semTop : String → Option StoredMemory)
    (hf sf : Bool) (storeSeq : String → Nat → StoreOutcome)
    (reinfSeq : String → Nat → ReinfOutcome)
    (sim : StoredMemory) (c : Candidate)
    (content cat simContent simCat simId newId : String) (imp simImp : Int)
    (thr : ℚ) (maxA d : Nat)
    (hmaxA : 0 < maxA)
    (hcontent : c.content = some content)
    (hcne : content ≠ "")
    (hvalid : validateMemoryContent content = true)
    (hcat : c.category = some cat)
    (himp : c.importance = some imp)
    (hsimc : sim.content = some simContent)
    (hsimcat : sim.category = some simCat)
    (hsimimp : sim.importance = some simImp)
    (hsimh : sim.contentHash = some (getContentHash sha content))
    (hhne : getContentHash sha content ≠ "")
    (hsimid : getMemoryId sim = some simId)
    (hstore : storeSeq content 0 = .ok newId)
    (hreinf : reinfSeq simId 0 = .ok) :
    (pyLower simContent = pyLower content ∧
        (simCat ≠ cat ∨ 2 < (simImp - imp).natAbs) →
      storeMemoriesWithDeduplication sha
          ⟨[sim], semTop, false, hf, sf, storeSeq, reinfSeq⟩ thr maxA d [c] =
        { stored := [newId], reinforced := [], failed := [],
          conflicts := [⟨simCat, simImp, cat, imp⟩] }) ∧
    (¬ (pyLower simContent = pyLower content ∧
        (simCat ≠ cat ∨ 2 < (simImp - imp).natAbs)) →
      storeMemoriesWithDeduplication sha
          ⟨[sim], semTop, false, hf, sf, storeSeq, reinfSeq⟩ thr maxA d [c] =
        { stored := [], reinforced := [simId], failed := [],
          conflicts := [] }) := by
  have hbatch : batchFindSimilarMemories sha
      ⟨[sim], semTop, false, hf, sf, storeSeq, reinfSeq⟩ thr [c] =
      [(getContentHash sha content, some sim)] := by
    simp [batchFindSimilarMemories, batchFindE, buildMemoryHashes,
      searchAllExisting, buildExistingIndex, existingIndexStep, hcontent,
      hcne, hsimh, hhne, alistGet, alistPut]
  obtain ⟨n, rfl⟩ : ∃ n, maxA = n + 1 := ⟨maxA - 1, by omega⟩
  constructor
  · intro hcond
    have hout : processMemoryOutcome sha
        ⟨[sim], semTop, false, hf, sf, storeSeq, reinfSeq⟩ thr (n + 1) d
        [(getContentHash sha content, some sim)] c =
        .conflictStored newId ⟨simCat, simImp, cat, imp⟩ := by
      simp only [processMemoryOutcome, hcontent, Option.getD_some, hcat, himp,
        hsimc, hsimcat, hsimimp, alistGet, if_pos rfl]
      rw [if_neg hcne, if_pos hvalid]
      simp [hsimc, hsimcat, hsimimp]
      rw [if_pos hcond]
      simp [storeMemoryWithRetry, storeRetryAux, hstore]
    rw [storeMemoriesWithDeduplication]
    rw [hbatch]
    simp [hout, applyOutcome, outcomeContribution, emptyDedupResult]
  · intro hcond
    have hout : processMemoryOutcome sha
        ⟨[sim], semTop, false, hf, sf, storeSeq, reinfSeq⟩ thr (n + 1) d
        [(getContentHash sha content, some sim)] c =
        .reinforcedOk simId := by
      simp only [processMemoryOutcome, hcontent, Option.getD_some, hcat, himp,
        hsimc, hsimcat, hsimimp, alistGet, if_pos rfl]
      rw [if_neg hcne, if_pos hvalid]
      simp [hsimc, hsimcat, hsimimp]
      rw [if_neg hcond, hsimid]
      simp [reinforceMemoryWithRetry, reinforceRetryAux, hreinf]
    rw [storeMemoriesWithDeduplication]
    rw [hbatch]
    simp [hout, applyOutcome, outcomeContribution, emptyDedupResult]

/-- Closed witness for C2 at a concrete conflicting pair. -/
theorem C2_conflict_rule_witness :
    storeMemoriesWithDeduplication shaTag storeC2w
        memorySimilarityThreshold 3 1 [candC2w] =
      { stored := ["new2"], reinforced := [], failed := [],
        conflicts := [⟨"factual", 5, "preference", 5⟩] } := by
  have h := (C2_conflict_rule shaTag (fun _ => Option.none) false false
      (fun _ _ => .ok "new2") (fun _ _ => .ok) simC2w candC2w
      "john likes tea" "preference" "John Likes Tea" "factual" "m2" "new2"
      5 5 memorySimilarityThreshold 3 1 (by norm_num) rfl (by decide)
      (by decide) rfl rfl rfl rfl rfl rfl (by decide) rfl rfl rfl).1
      ⟨by decide, Or.inl (by decide)⟩
  exact h

/-! ## C3 and C4 — chunking: non-termination and coverage -/

theorem chunkLoopC3_none : ∀ (fuel : Nat) (chunks : List Chunk) (idx curOv : Nat),
    chunkLoop 4 2 fuel [msgC3, msgD3] chunks [msgB3] 2 idx curOv = Option.none := by
  intro fuel
  induction fuel with
  | zero => intro chunks idx curOv; rfl
  | succ n ih =>
    intro chunks idx curOv
    have hstep : chunkLoop 4 2 (n + 1) [msgC3, msgD3] chunks [msgB3] 2 idx curOv =
        chunkLoop 4 2 n [msgC3, msgD3]
          (chunks ++ [mkChunk [msgB3] idx 0 2 curOv]) [msgB3] 2 (idx + 1) 1 := rfl
    rw [hstep]
    exact ih _ _ _

/-- C3 (refuting evaluation): in `transcriptC3` the third message is a user
message whose estimate (5 tokens) exceeds the whole budget (4 tokens), and
the preceding overlap seed is non-empty (`msgB3`, 2 tokens).  The loop
splits before the user message, re-seeds the overlap, finds
overlap + message over budget again, and re-emits the same window forever:
for every fuel bound the chunking loop fails to terminate, so the message
is never emitted in any window. -/
theorem C3_chunking_nontermination :
    4 < msgTokens msgC3 ∧
    (∀ fuel : Nat, chunkTranscript fuel 4 2 transcriptC3 = Option.none) := by
  constructor
  · decide
  · have hloop : ∀ fuel, chunkLoop 4 2 fuel transcriptC3 [] [] 0 0 0 = Option.none := by
      intro fuel
      match fuel with
      | 0 => rfl
      | 1 => rfl
      | (n + 2) =>
        have hsteps : chunkLoop 4 2 (n + 2) transcriptC3 [] [] 0 0 0 =
            chunkLoop 4 2 n [msgC3, msgD3] [mkChunk [msgA3] 0 0 3 0] [msgB3] 2 1 0 := rfl
        rw [hsteps]
        exact chunkLoopC3_none n _ _ _
    intro fuel
    rw [chunkTranscript, if_neg (by decide), if_neg (by decide), hloop fuel]

theorem chunkLoopC4_none : ∀ (fuel : Nat) (chunks : List Chunk) (idx curOv : Nat),
    chunkLoop 4 2 fuel [msgC4] chunks [msgB3] 2 idx curOv = Option.none := by
  intro fuel
  induction fuel with
  | zero => intro chunks idx curOv; rfl
  | succ n ih =>
    intro chunks idx curOv
    have hstep : chunkLoop 4 2 (n + 1) [msgC4] chunks [msgB3] 2 idx curOv =
        chunkLoop 4 2 n [msgC4]
          (chunks ++ [mkChunk [msgB3] idx 0 2 curOv]) [msgB3] 2 (idx + 1) 1 := rfl
    rw [hstep]
    exact ih _ _ _

theorem chunkTranscriptC4_none :
    ∀ fuel : Nat, chunkTranscript fuel 4 2 transcriptC4 = Option.none := by
  have hloop : ∀ fuel, chunkLoop 4 2 fuel transcriptC4 [] [] 0 0 0 = Option.none := by
    intro fuel
    match fuel with
    | 0 => rfl
    | 1 => rfl
    | (n + 2) =>
      have hsteps : chunkLoop 4 2 (n + 2) transcriptC4 [] [] 0 0 0 =
          chunkLoop 4 2 n [msgC4] [mkChunk [msgA3] 0 0 3 0] [msgB3] 2 1 0 := rfl
      rw [hsteps]
      exact chunkLoopC4_none n _ _ _
  intro fuel
  rw [chunkTranscript, if_neg (by decide), if_neg (by decide), hloop fuel]

/-- C4 (counterexample): it is not true that every transcript can be
chunked (for some fuel bound) into chunks whose concatenation after
removing the leading overlap of each chunk reconstructs the transcript — on
`transcriptC4` (whose last message is over budget and follows a non-empty
overlap seed) the loop never terminates, so no chunk list is ever
produced. -/
theorem C4_coverage_counterexample :
    ¬ ∀ (t : List Msg) (maxT overlapT : Nat), ∃ (fuel : Nat) (cs : List Chunk),
        chunkTranscript fuel maxT overlapT t = some cs ∧
        (cs.map (fun c => c.chunk.drop c.overlapLen)).flatten = t := by
  intro h
  obtain ⟨fuel, cs, hsome, _⟩ := h transcriptC4 4 2
  rw [chunkTranscriptC4_none fuel] at hsome
  cases hsome

theorem drop_append_of_le {α : Type} (n : Nat) (l1 l2 : List α)
    (h : n ≤ l1.length) : (l1 ++ l2).drop n = l1.drop n ++ l2 := by
  rw [List.drop_append_eq_append_drop, Nat.sub_eq_zero_of_le h, List.drop_zero]

theorem chunkLoop_coverage (maxT ovT : Nat) :
    ∀ (fuel : Nat) (rest : List Msg) (chunks : List Chunk) (current : List Msg)
      (curTok idx curOv : Nat) (cs : List Chunk),
      curOv ≤ current.length →
      chunkLoop maxT ovT fuel rest chunks current curTok idx curOv = some cs →
      (cs.map (fun c => c.chunk.drop c.overlapLen)).flatten =
        (chunks.map (fun c => c.chunk.drop c.overlapLen)).flatten ++
          current.drop curOv ++ rest := by
  intro fuel
  induction fuel with
  | zero =>
    intro rest chunks current curTok idx curOv cs hle h
    cases h
  | succ n ih =>
    intro rest chunks current curTok idx curOv cs hle h
    cases rest with
    | nil =>
      simp only [chunkLoop] at h
      by_cases hcur : current = []
      · rw [if_pos hcur] at h
        cases h
        simp [hcur]
      · rw [if_neg hcur] at h
        cases h
        simp [mkChunk, List.map_append, List.flatten_append, List.append_assoc]
    | cons msg rest2 =>
      simp only [chunkLoop] at h
      by_cases hover : curTok + msgTokens msg > maxT ∧ current ≠ []
      · rw [if_pos hover] at h
        by_cases hsplit : splitAfterMsg msg rest2 current
        · rw [if_pos hsplit] at h
          have hrec := ih rest2 (chunks ++ [mkChunk current idx 0 curTok curOv])
            ((overlapOf ovT current).1 ++ [msg])
            ((overlapOf ovT current).2 + msgTokens msg) (idx + 1)
            (overlapOf ovT current).1.length cs (by simp) h
          rw [hrec, List.drop_left]
          simp [mkChunk, List.map_append, List.flatten_append, List.append_assoc]
        · rw [if_neg hsplit] at h
          have hrec := ih (msg :: rest2) (chunks ++ [mkChunk current idx 0 curTok curOv])
            (overlapOf ovT current).1 (overlapOf ovT current).2 (idx + 1)
            (overlapOf ovT current).1.length cs (Nat.le_refl _) h
          rw [hrec, List.drop_length]
          simp [mkChunk, List.map_append, List.flatten_append, List.append_assoc]
      · rw [if_neg hover] at h
        have hrec := ih rest2 chunks (current ++ [msg]) (curTok + msgTokens msg)
          idx curOv cs (hle.trans (by simp)) h
        rw [hrec, drop_append_of_le curOv current [msg] hle]
        simp [List.append_assoc]

/-- C4 (amended): whenever the chunking loop terminates (returns a chunk
list within some fuel bound), concatenating the chunk message lists after
dropping the leading overlap seed of each chunk reconstructs the original
transcript exactly — every message appears, in order, none dropped. -/
theorem C4_chunk_coverage (fuel maxT overlapT : Nat) (t : List Msg)
    (cs : List Chunk) (h : chunkTranscript fuel maxT overlapT t = some cs) :
    (cs.map (fun c => c.chunk.drop c.overlapLen)).flatten = t := by
  rw [chunkTranscript] at h
  by_cases ht : t = []
  · rw [if_pos ht] at h
    cases h
    simp [ht]
  · rw [if_neg ht] at h
    by_cases htot : estimateTokens (fullTranscriptText t) ≤ maxT
    · rw [if_pos htot] at h
      cases h
      simp [mkChunk]
    · rw [if_neg htot] at h
      cases hloop : chunkLoop maxT overlapT fuel t [] [] 0 0 0 with
      | none => rw [hloop] at h; cases h
      | some cs0 =>
        rw [hloop] at h
        cases h
        have hcov := chunkLoop_coverage maxT overlapT fuel t [] [] 0 0 0 cs0
          (Nat.le_refl _) hloop
        have hmap : ((cs0.map (fun c => { c with totalChunks := cs0.length })).map
            (fun c => c.chunk.drop c.overlapLen)) =
            cs0.map (fun c => c.chunk.drop c.overlapLen) := by
          rw [List.map_map]
          rfl
        rw [hmap]
        simpa using hcov

/-- Closed witness for C4 on a terminating three-chunk split. -/
theorem C4_chunk_coverage_witness :
    chunkTranscript 10 4 0 transcriptW = some chunksW ∧
    (chunksW.map (fun c => c.chunk.drop c.overlapLen)).flatten = transcriptW := by
  have h1 : chunkTranscript 10 4 0 transcriptW = some chunksW := rfl
  exact ⟨h1, C4_chunk_coverage 10 4 0 transcriptW chunksW h1⟩

/-! ## C8 — the TTL cache -/

theorem alistGet_del_ne {α : Type} (k k2 : String) (hne : ¬ k2 = k) :
    ∀ l : List (String × α), alistGet k (alistDel k2 l) = alistGet k l := by
  intro l
  induction l with
  | nil => rfl
  | cons p rest ih =>
    by_cases hp : p.1 = k2
    · have hpk : ¬ p.1 = k := by rw [hp]; exact hne
      simp [alistDel, hp, alistGet, hpk, hne, ih]
    · simp [alistDel, hp, alistGet, ih]

theorem alistGet_del_none {α : Type} (k k2 : String) (l : List (String × α))
    (h : alistGet k l = Option.none) :
    alistGet k (alistDel k2 l) = Option.none := by
  by_cases he : k2 = k
  · subst he
    exact alistGet_del k2 l
  · rw [alistGet_del_ne k k2 he l]
    exact h

theorem alistGet_delIfPresent_self (k : String) (l : List (String × CEntry)) :
    alistGet k (delIfPresent k l) = Option.none := by
  rw [delIfPresent]
  cases hg : alistGet k l with
  | none => simp [hg]
  | some e => simp [hg, alistGet_del]

theorem alistGet_delIfPresent_none (k k2 : String) (l : List (String × CEntry))
    (h : alistGet k l = Option.none) :
    alistGet k (delIfPresent k2 l) = Option.none := by
  rw [delIfPresent]
  cases hg : alistGet k2 l with
  | none => simp [hg, h]
  | some e => simp [hg, alistGet_del_none k k2 l h]

/-- A cache read whose lookup (after the periodic sweep) misses returns
`None`. -/
theorem cacheGet_none_of_not_found (c : MCache) (now : ℚ) (caller : String)
    (agent : Option String)
    (h : alistGet (cacheKey caller agent) (cleanupExpired c now).cache =
      Option.none) :
    (cacheGet c now caller agent).1 = Option.none := by
  simp only [cacheGet]
  rw [h]

/-- A cache read that finds an expired entry returns `None`. -/
theorem cacheGet_none_of_expired (c : MCache) (now : ℚ) (caller : String)
    (agent : Option String) (e : CEntry)
    (hget : alistGet (cacheKey caller agent) (cleanupExpired c now).cache =
      some e)
    (hexp : isExpired now e = true) :
    (cacheGet c now caller agent).1 = Option.none := by
  simp only [cacheGet]
  rw [hget]
  simp [hexp]

/-- A cache read that returns a value returns the memories of an entry
that is not past its computed expiry at read time. -/
theorem cacheGet_fresh (c : MCache) (now : ℚ) (caller : String)
    (agent : Option String) (v : List String) (c2 : MCache)
    (h : cacheGet c now caller agent = (some v, c2)) :
    ∃ e : CEntry, v = e.memories ∧ ¬ now - e.timestamp > e.ttl := by
  rw [cacheGet] at h
  cases hget : alistGet (cacheKey caller agent) (cleanupExpired c now).cache with
  | none =>
    rw [hget] at h
    exact absurd h (by simp)
  | some e =>
    rw [hget] at h
    simp only [] at h
    by_cases hexp : isExpired now e
    · rw [if_pos hexp] at h
      exact absurd h (by simp)
    · rw [if_neg hexp] at h
      injection h with h1 h2
      injection h1 with h1
      exact ⟨e, h1.symm, by simpa [isExpired] using hexp⟩

/-- C8: (a) an entry is never returned past its computed expiry; (b) with
duplicate-free keys, a `get` performed more than the entry TTL seconds
after the `set` that wrote it returns `None`; (c) `invalidate` makes the
next `get` return `None` immediately, independent of the TTL, and
invalidating a specific `(caller, agent)` key also clears that caller
wildcard key. -/
theorem C8_cache_expiry_invalidate :
    (∀ (c : MCache) (now : ℚ) (caller : String) (agent : Option String)
        (v : List String) (c2 : MCache),
      cacheGet c now caller agent = (some v, c2) →
      ∃ e : CEntry, v = e.memories ∧ ¬ now - e.timestamp > e.ttl) ∧
    (∀ (c : MCache) (now1 now2 tt : ℚ) (caller : String) (agent : Option String)
        (mems : List String),
      (c.cache.map Prod.fst).Nodup → tt ≠ 0 → now2 - now1 > tt →
      (cacheGet (cacheSet c now1 caller mems agent (some tt)) now2 caller agent).1 =
        Option.none) ∧
    (∀ (c : MCache) (now : ℚ) (caller a : String), a ≠ "" →
      (cacheGet (cacheInvalidate c caller (some a)) now caller (some a)).1 =
        Option.none ∧
      (cacheGet (cacheInvalidate c caller (some a)) now caller Option.none).1 =
        Option.none) := by
  refine ⟨cacheGet_fresh, ?_, ?_⟩
  · intro c now1 now2 tt caller agent mems hnd htt h2
    set key := cacheKey caller agent with hkey
    set E : CEntry := { memories := mems, timestamp := now1, ttl := tt } with hE
    have hEexp : isExpired now2 E = true := by
      simp [isExpired, hE]
      exact h2
    set c1 := cacheSet c now1 caller mems agent (some tt) with hc1
    have hc1cache : c1.cache = alistPut key E (cleanupExpired c now1).cache := by
      rw [hc1, cacheSet]
      simp [hE, htt]
    have hc1get : alistGet key c1.cache = some E := by
      rw [hc1cache, alistGet_put]
      simp
    have hc1nd : (c1.cache.map Prod.fst).Nodup := by
      rw [hc1cache]
      apply keys_nodup_put
      rw [cleanupExpired]
      by_cases hskip : now1 - c.lastCleanup < 300
      · rw [if_pos hskip]
        exact hnd
      · rw [if_neg hskip]
        exact List.Nodup.sublist (List.Sublist.map _ (List.filter_sublist _)) hnd
    have hfil : alistGet key
        (c1.cache.filter (fun p => ! isExpired now2 p.2)) = Option.none := by
      cases hw : alistGet key (c1.cache.filter (fun p => ! isExpired now2 p.2)) with
      | none => rfl
      | some w =>
        have hmemf := alistGet_mem key w _ hw
        have hmem := (List.mem_filter.mp hmemf).1
        have hkeep := (List.mem_filter.mp hmemf).2
        have hwE : w = E := by
          have h1 := alistGet_of_mem_nodup key w c1.cache hc1nd hmem
          rw [hc1get] at h1
          injection h1 with h1
          exact h1.symm
        rw [hwE, hEexp] at hkeep
        simp at hkeep
    by_cases hskip2 : now2 - c1.lastCleanup < 300
    · refine cacheGet_none_of_expired c1 now2 caller agent E ?_ hEexp
      rw [cleanupExpired, if_pos hskip2]
      exact hc1get
    · refine cacheGet_none_of_not_found c1 now2 caller agent ?_
      rw [cleanupExpired, if_neg hskip2]
      exact hfil
  · intro c now caller a ha
    set key := cacheKey caller (some a) with hkey
    set wkey := cacheKey caller Option.none with hwkey
    have hcache : (cacheInvalidate c caller (some a)).cache =
        delIfPresent wkey (delIfPresent key c.cache) := by
      rw [cacheInvalidate]
      simp [ha, hkey, hwkey]
    have hk : alistGet key (cacheInvalidate c caller (some a)).cache =
        Option.none := by
      rw [hcache]
      exact alistGet_delIfPresent_none key wkey _
        (alistGet_delIfPresent_self key c.cache)
    have hw : alistGet wkey (cacheInvalidate c caller (some a)).cache =
        Option.none := by
      rw [hcache]
      exact alistGet_delIfPresent_self wkey _
    constructor
    · refine cacheGet_none_of_not_found _ now caller (some a) ?_
      rw [cleanupExpired]
      by_cases hskip : now - (cacheInvalidate c caller (some a)).lastCleanup < 300
      · rw [if_pos hskip]
        exact hk
      · rw [if_neg hskip]
        exact alistGet_none_of_filter key _ _ hk
    · refine cacheGet_none_of_not_found _ now caller Option.none ?_
      rw [cleanupExpired]
      by_cases hskip : now - (cacheInvalidate c caller (some a)).lastCleanup < 300
      · rw [if_pos hskip]
        exact hw
      · rw [if_neg hskip]
        exact alistGet_none_of_filter wkey _ _ hw

/-- Closed witness for C8: set with a 1-second TTL at time 0, read at
time 2; and invalidate on a fresh entry. -/
theorem C8_cache_expiry_invalidate_witness :
    (cacheGet (cacheSet { cache := [], defaultTtl := 3600, lastCleanup := 0 }
        0 "c" ["m"] (some "a") (some 1)) 2 "c" (some "a")).1 = Option.none ∧
    (cacheGet (cacheInvalidate (cacheSet
        { cache := [], defaultTtl := 3600, lastCleanup := 0 }
        0 "c" ["m"] (some "a") (some 3600)) "c" (some "a")) 0 "c" (some "a")).1 =
      Option.none := by
  constructor
  · exact C8_cache_expiry_invalidate.2.1
      { cache := [], defaultTtl := 3600, lastCleanup := 0 } 0 2 1 "c" (some "a")
      ["m"] (by simp) (by norm_num) (by norm_num)
  · exact (C8_cache_expiry_invalidate.2.2 (cacheSet
      { cache := [], defaultTtl := 3600, lastCleanup := 0 }
      0 "c" ["m"] (some "a") (some 3600)) 0 "c" "a" (by decide)).1

end ElaaOMS
